import Mathlib

/-
  Verification of the extension-pack reconciliation core of
  validate-vscode-extension-pack.

  The embedding translates the pure logic of src/unnamed/part_006 (the
  `utils` module) and the CLI decision of src/unnamed/part_002 / src/src/cli.ts
  into Lean.  Remote calls (node-fetch, octokit) are represented by explicit
  response arguments: every function that awaited a network response here
  takes that response as a parameter, and JavaScript exceptions are
  represented by `Except JsError`.
-/

namespace VSPack

/-- A JavaScript exception: either a `new Error(msg)` thrown by the repository
code, or a native `TypeError` raised by an undefined/null property access. -/
inductive JsError where
  | error (msg : String)
  | typeError (msg : String)
deriving DecidableEq

instance {ε α : Type} [DecidableEq ε] [DecidableEq α] : DecidableEq (Except ε α) := fun x y =>
  match x, y with
  | .error a, .error b =>
    if h : a = b then .isTrue (by rw [h]) else .isFalse (by simp [h])
  | .ok a, .ok b =>
    if h : a = b then .isTrue (by rw [h]) else .isFalse (by simp [h])
  | .error _, .ok _ => .isFalse (by simp)
  | .ok _, .error _ => .isFalse (by simp)

/-- `AssetType` enum of part_006 lines 70-79. -/
inductive AssetType where
  | MicrosoftVisualStudioCodeManifest
  | MicrosoftVisualStudioServicesContentChangelog
  | MicrosoftVisualStudioServicesContentDetails
  | MicrosoftVisualStudioServicesContentLicense
  | MicrosoftVisualStudioServicesIconsDefault
  | MicrosoftVisualStudioServicesIconsSmall
  | MicrosoftVisualStudioServicesVSIXPackage
  | MicrosoftVisualStudioServicesVsixManifest
deriving DecidableEq, BEq

/-- `File` interface of part_006 lines 65-68. -/
structure File where
  assetType : AssetType
  source : String
deriving DecidableEq

/-- `Version` interface of part_006 lines 56-63; only the fields read by the
embedded logic are kept. -/
structure Version where
  version : String
  lastUpdated : String
  files : List File
deriving DecidableEq

/-- `Extension` interface of part_006 lines 27-42 (marketplace metadata);
only the fields read by the embedded logic are kept. -/
structure Extension where
  extensionName : String
  lastUpdated : String
  versions : List Version
deriving DecidableEq

/-- `PackageJson` type of part_006 lines 95-98.  A `none` field stands for a
JSON document where the field is absent or null (falsy in the `||` chain of
`extractExtensionPackFromPackageJson`). -/
structure PackageJson where
  extensionPack : Option (List String)
  extensionDependencies : Option (List String)
deriving DecidableEq

/-- Modelled from the spec: the `OpenVsxExtension` record of src/types/openvsx
(that file is not among the provided sources).  Only the `namespace` and
`name` fields are read (part_006 line 366); `namespace` is a Lean keyword so
the field is called `namespaceName`. -/
structure OpenVsxExtension where
  namespaceName : String
  name : String
deriving DecidableEq

/-- The JSON body of an Open VSX `GET /api/{publisher}/{name}` response:
either a body containing an `error` field, or an extension record
(part_006 line 160). -/
inductive OpenVsxRespBody where
  | errorBody (error : String)
  | extBody (ext : OpenVsxExtension)
deriving DecidableEq

/-- Outcome of one `fetch(...).then(res => res.json())`: the parsed body, or a
transport/JSON failure (a rejected promise caught by `.catch`). -/
inductive FetchOutcome (α : Type) where
  | success (body : α)
  | failure
deriving DecidableEq

/-- Result of `findExtByNameInOpenVSX`: an `OpenVsxExtension`, or the typed
not-found record `{publisherName, name, notFound: true}` of part_006
lines 162-166. -/
inductive OpenVsxLookupResult where
  | found (ext : OpenVsxExtension)
  | notFound (publisherName : String) (name : String)
deriving DecidableEq

/-- Modelled from the spec: one character of JavaScript's `toLowerCase` (a
platform builtin), restricted to ASCII — the identifier alphabet this
program handles. -/
def lowerChar (c : Char) : Char :=
  if 'A' ≤ c ∧ c ≤ 'Z' then Char.ofNat (c.toNat + 32) else c

/-- Modelled from the spec: JavaScript's `String.prototype.toLowerCase` on
ASCII strings. -/
def toLowerCase (s : String) : String :=
  String.mk (s.toList.map lowerChar)

/-- Modelled from the spec: JavaScript's `String.prototype.split` with a
one-character separator, defined on the character list. -/
def splitOnChar (sep : Char) : List Char → List (List Char)
  | [] => [[]]
  | c :: rest =>
    match splitOnChar sep rest with
    | [] => [[c]]
    | h :: t => if c = sep then [] :: h :: t else (c :: h) :: t

/-- `extID.split('.')` as used throughout the source. -/
def splitDot (s : String) : List String :=
  (splitOnChar '.' s.toList).map String.mk

/-- Whether a character list ends with the given suffix. -/
def listEndsWith (suf cs : List Char) : Bool :=
  cs.drop (cs.length - suf.length) == suf

/-- Whether a character list starts with the given prefix. -/
def listStartsWith (pre cs : List Char) : Bool :=
  cs.take pre.length == pre

/-- `findExtByNameInOpenVSX` (part_006 lines 149-174): a body with an `error`
field, or any transport/JSON failure, maps to the lower-cased not-found
record; otherwise the extension body is returned. -/
def findExtByNameInOpenVSX (publisherName : String) (name : String)
    (resp : FetchOutcome OpenVsxRespBody) : OpenVsxLookupResult :=
  match resp with
  | .failure => .notFound (toLowerCase publisherName) (toLowerCase name)
  | .success (.errorBody _) => .notFound (toLowerCase publisherName) (toLowerCase name)
  | .success (.extBody ext) => .found ext

/-- Modelled from the spec: the result shape of the `git-url-parse` library
(a third-party package), restricted to the owner/name coordinates the
repository code reads. -/
structure GitUrl where
  owner : String
  name : String
deriving DecidableEq

/-- Modelled from the spec: `GitUrlParse` of the `git-url-parse` library.  It
parses `https://host/owner/name[.git]` shaped URLs into owner and repository
name; it never throws on a string input. -/
def GitUrlParse (s : String) : GitUrl :=
  let cs := s.toList
  let cs1 := if listEndsWith ".git".toList cs then cs.take (cs.length - 4) else cs
  let cs2 := if listStartsWith "https://".toList cs1 then cs1.drop 8 else cs1
  let parts := (splitOnChar '/' cs2).map String.mk
  { owner := parts.getD 1 "", name := parts.getD 2 "" }

/-- Modelled from the spec: `parsedGitUrl.toString('https')` of
`git-url-parse`, with `git_suffix = false` (part_006 lines 127-129): the
https rendering without a `.git` suffix. -/
def gitUrlToStringHttps (g : GitUrl) : String :=
  "https://github.com/" ++ g.owner ++ "/" ++ g.name

/-- The `repository` field of a fetched vsix manifest (part_006 line 107):
a plain URL string, an object with an optional `url`, null, or absent. -/
inductive RepoField where
  | missing
  | nullv
  | str (s : String)
  | obj (url : Option String)
deriving DecidableEq

/-- The `{owner, name, repoUrl}` record returned by `getExtManifest` and
`getRepoByVsixManifest`. -/
structure RepoInfo where
  owner : String
  name : String
  repoUrl : String
deriving DecidableEq

/-- `getExtManifest` (part_006 lines 104-130), given the `repository` field of
the fetched manifest.  A string passes straight through `GitUrlParse`; an
object with a falsy `url` (absent, null or empty) throws the typed
`repoUrl should be valid url` error; a null or absent `repository` raises a
native TypeError when `.url` is read (the `typeof repository === 'object'`
guard is false for undefined, and property access throws on null). -/
def getExtManifest (repository : RepoField) : Except JsError RepoInfo :=
  match repository with
  | .str s =>
    let g := GitUrlParse s
    .ok { owner := g.owner, name := g.name, repoUrl := s }
  | .nullv => .error (.typeError "Cannot read properties of null (reading url)")
  | .missing => .error (.typeError "Cannot read properties of undefined (reading url)")
  | .obj none =>
    .error (.error "repoUrl should be valid url, for instance https://github.com/microsoft/vscode-docker")
  | .obj (some "") =>
    .error (.error "repoUrl should be valid url, for instance https://github.com/microsoft/vscode-docker")
  | .obj (some url) =>
    let g := GitUrlParse url
    .ok { owner := g.owner, name := g.name, repoUrl := gitUrlToStringHttps g }

/-- The manifest-asset URL extraction of part_006 lines 138-140:
`ext.versions.shift()?.files.find(assetType === Manifest)?.source`
applied to one version. -/
def findManifestAsset (v : Version) : Option String :=
  (v.files.find? (fun itm => itm.assetType == AssetType.MicrosoftVisualStudioCodeManifest)).map
    (fun f => f.source)

/-- `getRepoByVsixManifest` (part_006 lines 132-147).  `versions.shift()`
mutates the extension, so the function is embedded as state passing: it
returns the result together with the extension after the call (its versions
list lost its head).  `repoField` is the `repository` field of the manifest
fetched at the asset URL.  A falsy `assetUrl` (no versions left, no manifest
asset, or an empty source) throws the `assetUrl` error. -/
def getRepoByVsixManifest (ext : Option Extension) (repoField : RepoField) :
    Except JsError RepoInfo × Option Extension :=
  match ext with
  | none => (.error (.error "Extension should not be empty"), none)
  | some e =>
    match e.versions with
    | [] => (.error (.error "assetUrl should be valid url to ext manifest"), some { e with versions := [] })
    | v :: rest =>
      let result : Except JsError RepoInfo :=
        match findManifestAsset v with
        | none => .error (.error "assetUrl should be valid url to ext manifest")
        | some "" => .error (.error "assetUrl should be valid url to ext manifest")
        | some _ => getExtManifest repoField
      (result, some { e with versions := rest })

/-- One entry of the marketplace query response `results` array
(part_006 lines 21-25); only the `extensions` array is read, and it may be
absent (guarded by `extensions?.pop()`). -/
structure MarketResult where
  extensions : Option (List Extension)
deriving DecidableEq

/-- The marketplace query response body (part_006 lines 17-19); `results` may
be absent (guarded by `results?`). -/
structure MarketResponse where
  results : Option (List MarketResult)
deriving DecidableEq

/-- `getExtInfoFromMicrosoftStore` (part_006 lines 208-247), reduced to its
response handling `resp?.results?.pop().extensions?.pop()`.  A nullish
response or `results` short-circuits to undefined; an empty `results` array
makes `pop()` return undefined and the unguarded `.extensions` access raise
a TypeError; otherwise the last result's last extension (or undefined) is
returned. -/
def getExtInfoFromMicrosoftStore (resp : Option MarketResponse) :
    Except JsError (Option Extension) :=
  match resp with
  | none => .ok none
  | some r =>
    match r.results with
    | none => .ok none
    | some rs =>
      match rs.getLast? with
      | none => .error (.typeError "Cannot read properties of undefined (reading extensions)")
      | some res =>
        match res.extensions with
        | none => .ok none
        | some exts => .ok exts.getLast?

/-- Whitespace stripped by the `\s+` regex in js-base64's `isValid`. -/
def isWsChar (c : Char) : Bool :=
  c == ' ' || c == '\t' || c == '\n' || c == '\r' || c == '\x0c'

/-- Strip all whitespace from a string (the `replace(/\s+/g, '')` step). -/
def stripWs (s : String) : String :=
  String.mk (s.toList.filter (fun c => !isWsChar c))

/-- Strip at most two trailing `=` characters (the `replace(/={0,2}$/, '')`
step of js-base64's `isValid`). -/
def dropTrailingEq (s : String) : String :=
  let cs := s.toList
  let cs1 := if cs.getLast? = some '=' then cs.dropLast else cs
  let cs2 := if cs1.getLast? = some '=' then cs1.dropLast else cs1
  String.mk cs2

/-- Modelled from the spec: `isValid` of the js-base64 library (a third-party
package): after stripping whitespace and up to two trailing `=`, every
character is in the standard base64 alphabet or every character is in the
URL-safe alphabet. -/
def isValidB64 (s : String) : Bool :=
  let t := dropTrailingEq (stripWs s)
  t.toList.all (fun c => c.isAlphanum || c == '+' || c == '/')
    || t.toList.all (fun c => c.isAlphanum || c == '-' || c == '_')

/-- Value of one base64 alphabet character. -/
def b64Val (c : Char) : Nat :=
  if 'A' ≤ c ∧ c ≤ 'Z' then c.toNat - 65
  else if 'a' ≤ c ∧ c ≤ 'z' then c.toNat - 71
  else if '0' ≤ c ∧ c ≤ '9' then c.toNat + 4
  else if c == '+' then 62
  else if c == '/' then 63
  else 0

/-- Base64 sextet groups to bytes. -/
def b64Bytes : List Nat → List Nat
  | a :: b :: c :: d :: rest =>
    (a * 4 + b / 16) :: ((b % 16) * 16 + c / 4) :: ((c % 4) * 64 + d) :: b64Bytes rest
  | [a, b] => [a * 4 + b / 16]
  | [a, b, c] => [a * 4 + b / 16, (b % 16) * 16 + c / 4]
  | _ => []

/-- Modelled from the spec: `decode` of the js-base64 library on ASCII
payloads (URL-safe characters are normalised, whitespace and padding
dropped, and the decoded bytes are read as characters — the package.json
payloads handled by this program are ASCII). -/
def decodeB64 (s : String) : String :=
  let t := dropTrailingEq (stripWs s)
  let u := t.toList.map (fun c => if c == '-' then '+' else if c == '_' then '/' else c)
  String.mk ((b64Bytes (u.map b64Val)).map Char.ofNat)

/-- `extractExtensionPackFromPackageJson` (part_006 lines 176-179):
`(pkg.extensionPack || pkg.extensionDependencies || []).map(toLowerCase)`. -/
def extractExtensionPackFromPackageJson (pkg : PackageJson) : List String :=
  ((pkg.extensionPack.orElse (fun _ => pkg.extensionDependencies)).getD []).map toLowerCase

/-- `downloadPackageJsonFromGithub` (part_006 lines 181-196), given the
base64 `content` field of the octokit `getContent` response (absent fields
and the falsy empty string both skip the decode branch) and a model `parse`
of `JSON.parse` (`none` means `JSON.parse` throws).  Missing or
base64-invalid content yields the empty package; content that decodes to
invalid JSON propagates the parse exception. -/
def downloadPackageJsonFromGithub (parse : String → Option PackageJson)
    (content : Option String) : Except JsError PackageJson :=
  match content with
  | none => .ok { extensionPack := none, extensionDependencies := none }
  | some c =>
    if c != "" && isValidB64 c then
      match parse (decodeB64 c) with
      | some pkg => .ok pkg
      | none => .error (.error "Unexpected end of JSON input")
    else .ok { extensionPack := none, extensionDependencies := none }

/-- Modelled from the spec: `JSON.parse` (a platform builtin) restricted to
the concrete package.json documents used in this development; every other
string is unparsable and makes `JSON.parse` throw. -/
def jsonParsePkg : String → Option PackageJson := fun s =>
  if s = "\x7b\x7d" then some { extensionPack := none, extensionDependencies := none }
  else none

/-- `isExtensionPack` (part_006 lines 198-206): resolve the marketplace
entry, its repository, its package.json, and report whether the extracted
member list is non-empty.  Each awaited response is a parameter. -/
def isExtensionPack (parse : String → Option PackageJson)
    (marketResp : Option MarketResponse) (repoField : RepoField)
    (content : Option String) (name : String) : Except JsError Bool :=
  match getExtInfoFromMicrosoftStore marketResp with
  | .error e => .error e
  | .ok none => .error (.error ("Extension (" ++ name ++ ") not found"))
  | .ok (some ext) =>
    match (getRepoByVsixManifest (some ext) repoField).1 with
    | .error e => .error e
    | .ok _ =>
      match downloadPackageJsonFromGithub parse content with
      | .error e => .error e
      | .ok pkg => .ok (decide ((extractExtensionPackFromPackageJson pkg).length > 0))

/-- `VSExtension` candidate record as constructed by `addLinks`
(part_006 lines 293-307); the type itself lives in src/types/openvsx, which
is not among the provided sources, so the field list follows the spec's
CandidateRecord and the `addLinks` literal. -/
structure VSExtension where
  name : String
  msmarketplaceUrl : String
  openvsx : String
  repoUrl : Option String
  license : Option String
  licenseUrl : Option String
  lastUpdated : String
deriving DecidableEq

/-- `addLinks` (part_006 lines 293-307).  JavaScript array destructuring of
`name.split('.')` leaves the second component `undefined` when there is no
dot, and the template renders it as the string `undefined`. -/
def addLinks (items : List String) : List VSExtension :=
  items.map (fun name =>
    let parts := splitDot name
    let publisherName := parts.getD 0 "undefined"
    let extname := parts.getD 1 "undefined"
    { name := name
      msmarketplaceUrl := "https://marketplace.visualstudio.com/items?itemName=" ++ name
      openvsx := "https://open-vsx.org/extension/" ++ publisherName ++ "/" ++ extname
      repoUrl := none
      license := none
      licenseUrl := none
      lastUpdated := "" })

/-- `extName` (part_006 lines 309-311). -/
def extName (publisherName : String) (name : String) : String :=
  toLowerCase (publisherName ++ "." ++ name)

/-- `deprecatedExtensionsMap` (part_006 lines 100-102). -/
def deprecatedExtensionsMap : List (String × String) :=
  [("peterjausovec.vscode-docker", "ms-azuretools.vscode-docker")]

/-- `extensionsDontMeetOpenVSXConditons` (part_006 lines 254-257). -/
def extensionsDontMeetOpenVSXConditons : List String :=
  ["wallabyjs.quokka-vscode", "visualstudioexptteam.vscodeintellicode"]

/-- Result of `checkExtensionsInOpenVsxFromVSCodeMarketplace`
(part_006 lines 369-377). -/
structure CheckResult where
  all : List String
  found : List VSExtension
  notfound : List VSExtension
deriving DecidableEq

/-- The membership-checking core of
`checkExtensionsInOpenVsxFromVSCodeMarketplace` (part_006 lines 353-377),
from the resolved member `list` on: snapshot misses plus the pack's own
identifier are looked up live (`liveApi` gives each queried identifier's
response); live-found identifiers are keyed by the `namespace.name` of the
response body; `found` and `notfound` partition `list` by snapshot-or-live
presence. -/
def checkMembership (openVsxExtensionMap : List String)
    (liveApi : String → FetchOutcome OpenVsxRespBody)
    (extensionPackName : String) (list : List String) : CheckResult :=
  let notfound0 := (list.filter (fun id => !openVsxExtensionMap.contains id)) ++ [extensionPackName]
  let extensionsFromOpenVSX := notfound0.map (fun extID =>
    findExtByNameInOpenVSX ((splitDot extID).getD 0 "undefined")
      ((splitDot extID).getD 1 "undefined") (liveApi extID))
  let extensionsFromOpenVSXMap := extensionsFromOpenVSX.filterMap (fun itm =>
    match itm with
    | .found e => some (extName e.namespaceName e.name)
    | .notFound _ _ => none)
  let present := fun id => openVsxExtensionMap.contains id || extensionsFromOpenVSXMap.contains id
  { all := list
    found := addLinks (list.filter present)
    notfound := addLinks (list.filter (fun id => !(present id))) }

/-- `checkExtensionsInOpenVsxFromVSCodeMarketplace` (part_006 lines 337-378):
the resolver prefix (marketplace entry, repository via the vsix manifest —
its failure rethrown as `Extension pack not found` — and package.json) chained
into `checkMembership`. -/
def checkExtensionsInOpenVsxFromVSCodeMarketplace
    (parse : String → Option PackageJson) (marketResp : Option MarketResponse)
    (repoField : RepoField) (content : Option String)
    (openVsxExtensionMap : List String)
    (liveApi : String → FetchOutcome OpenVsxRespBody)
    (extensionPackName : String) : Except JsError CheckResult :=
  match getExtInfoFromMicrosoftStore marketResp with
  | .error e => .error e
  | .ok info =>
    match (getRepoByVsixManifest info repoField).1 with
    | .error _ => .error (.error "Extension pack not found")
    | .ok _ =>
      match downloadPackageJsonFromGithub parse content with
      | .error e => .error e
      | .ok pkg =>
        .ok (checkMembership openVsxExtensionMap liveApi extensionPackName
          (extractExtensionPackFromPackageJson pkg))

/-- `getlicenseSpdxIdByRepoName` (part_006 lines 268-275), given the license
portion of the octokit `repos.get` response: a rejected request propagates;
a null `license` field makes the destructuring of `info.license!` raise a
TypeError; otherwise `(spdx_id, html_url)` is returned. -/
def getlicenseSpdxIdByRepoName
    (repoLicense : Except JsError (Option (Option String × Option String))) :
    Except JsError (Option String × Option String) :=
  match repoLicense with
  | .error e => .error e
  | .ok none => .error (.typeError "Cannot destructure property spdx_id of null")
  | .ok (some p) => .ok p

/-- The remote responses consumed by one candidate's enrichment closure
(part_006 lines 390-398). -/
structure CandidateWorld where
  marketResp : Option MarketResponse
  repoField : RepoField
  licenseFetch : Except JsError (Option (Option String × Option String))

/-- One candidate's enrichment (the async closure of part_006 lines 390-398),
as the state transformation `Promise.allSettled` applies to that candidate's
record: `repoUrl` and `lastUpdated` are written once the repository resolves,
`licenseUrl` (`html_url! || null`: undefined or empty become null) and
`license` (`spdx_id!`) once the license fetch resolves; a rejection at any
stage leaves the remaining fields untouched. -/
def enrichItem (w : CandidateWorld) (item : VSExtension) : VSExtension :=
  match getExtInfoFromMicrosoftStore w.marketResp with
  | .error _ => item
  | .ok none => item
  | .ok (some info) =>
    match (getRepoByVsixManifest (some info) w.repoField).1 with
    | .error _ => item
    | .ok repo =>
      let item1 := { item with repoUrl := some repo.repoUrl, lastUpdated := info.lastUpdated }
      match getlicenseSpdxIdByRepoName w.licenseFetch with
      | .error _ => item1
      | .ok (spdx_id, html_url) =>
        { item1 with
          licenseUrl := match html_url with
            | none => none
            | some "" => none
            | some u => some u
          license := spdx_id }

/-- The `Promise.allSettled` fan-out of part_006 lines 389-399: every
candidate is enriched from its own responses (keyed by the candidate name the
closure queries), and the join always completes. -/
def enrichAll (candWorlds : String → CandidateWorld) (items : List VSExtension) :
    List VSExtension :=
  items.map (fun item => enrichItem (candWorlds item.name) item)

/-- Modelled from the spec: `new Date(s)` (a platform builtin) on the date
strings this development evaluates — an ISO `YYYY-MM-DD` string yields a
chronologically ordered key, anything else (including the empty string) is
an Invalid Date, `none`. -/
def parseDate (s : String) : Option Int :=
  match s.toList with
  | [y1, y2, y3, y4, h1, m1, m2, h2, d1, d2] =>
    if (y1.isDigit && y2.isDigit && y3.isDigit && y4.isDigit
        && m1.isDigit && m2.isDigit && d1.isDigit && d2.isDigit)
        && h1 == '-' && h2 == '-' then
      some (Int.ofNat ((((((y1.toNat - 48) * 10 + (y2.toNat - 48)) * 10 + (y3.toNat - 48)) * 10
        + (y4.toNat - 48)) * 100 + ((m1.toNat - 48) * 10 + (m2.toNat - 48))) * 100
        + ((d1.toNat - 48) * 10 + (d2.toNat - 48))))
    else none
  | _ => none

/-- The strict comparison underlying lodash's `compareAscending` on `Date`
keys: an Invalid Date (`none`) is never strictly below or above anything —
it ties with every value. -/
def dateLt (a b : Option Int) : Bool :=
  match a, b with
  | some x, some y => decide (x < y)
  | _, _ => false

/-- The sort key of part_006 line 401: `new Date(itm.lastUpdated)`. -/
def updKey (itm : VSExtension) : Option Int :=
  parseDate itm.lastUpdated

/-- Insertion step of the stable ascending sort: the element passes over
existing elements strictly below it and lands before the first one that is
not. -/
def insertByDate (x : VSExtension) : List VSExtension → List VSExtension
  | [] => [x]
  | y :: ys =>
    if dateLt (updKey y) (updKey x) then y :: insertByDate x ys
    else x :: y :: ys

/-- `sortBy([...notfound], itm => new Date(itm.lastUpdated))` of part_006
line 401: lodash's stable ascending sort, embedded as a stable insertion
sort under `dateLt` (ties, including every Invalid Date, keep input order). -/
def sortByDate (l : List VSExtension) : List VSExtension :=
  l.foldr insertByDate []

/-- Modelled from the spec: the canonical SPDX license-id set (the
`spdx-license-ids` package data, which is not part of this repository's
sources), represented by a selection of real SPDX identifiers. -/
def spdxLicenseIds : List String :=
  ["0BSD", "AGPL-3.0-only", "AGPL-3.0-or-later", "Apache-1.1", "Apache-2.0",
   "Artistic-2.0", "BSD-2-Clause", "BSD-3-Clause", "BSD-4-Clause", "BSL-1.0",
   "CC-BY-4.0", "CC-BY-SA-4.0", "CC0-1.0", "EPL-1.0", "EPL-2.0",
   "GPL-2.0-only", "GPL-2.0-or-later", "GPL-3.0-only", "GPL-3.0-or-later",
   "ISC", "LGPL-2.1-only", "LGPL-3.0-only", "MIT", "MPL-1.1", "MPL-2.0",
   "Unlicense", "WTFPL", "Zlib"]

/-- `ids.includes(itm.license)` of part_006 lines 409 and 416: an exact,
case-sensitive membership test; a null license is never a member. -/
def spdxIncludes (ids : List String) (license : Option String) : Bool :=
  match license with
  | some s => ids.contains s
  | none => false

/-- Result of `getExtensionThatNotPresentOnOpenVSX`
(part_006 lines 421-427). -/
structure ClassifyOutput where
  all : List (String × VSExtension)
  notFoundWithlicense : List VSExtension
  notFoundWithoutlicense : List VSExtension
  deprecatedExtensions : List String
  dontMeetConditions : List String
deriving DecidableEq

/-- The classification core of `getExtensionThatNotPresentOnOpenVSX`
(part_006 lines 389-427): enrich the absent candidates, sort them by
last-updated date, filter the deprecated and ineligible names out of the
full member list, and split the remaining absentees by SPDX license
membership.  The `all` map of line 422 is kept as the name-keyed pair list
(JavaScript `Map` construction keeps the last entry per key). -/
def classifyCandidates (spdxIds : List String)
    (candWorlds : String → CandidateWorld) (extensions : CheckResult) :
    ClassifyOutput :=
  let enriched := enrichAll candWorlds extensions.notfound
  let notfound := sortByDate enriched
  let deprecatedExtensions := extensions.all.filter
    (fun name => (deprecatedExtensionsMap.map Prod.fst).contains name)
  let dontMeetConditions := extensions.all.filter
    (fun name => extensionsDontMeetOpenVSXConditons.any (fun itm => itm == name))
  let notFoundWithlicense := notfound.filter (fun itm =>
    spdxIncludes spdxIds itm.license
      && !deprecatedExtensions.contains itm.name
      && !dontMeetConditions.contains itm.name)
  let notFoundWithoutlicense := notfound.filter (fun itm =>
    !(spdxIncludes spdxIds itm.license)
      && !deprecatedExtensions.contains itm.name
      && !dontMeetConditions.contains itm.name)
  { all := notfound.map (fun itm => (itm.name, itm))
    notFoundWithlicense := notFoundWithlicense
    notFoundWithoutlicense := notFoundWithoutlicense
    deprecatedExtensions := deprecatedExtensions
    dontMeetConditions := dontMeetConditions }

/-- `getExtensionThatNotPresentOnOpenVSX` (part_006 lines 380-428): the
membership check chained into the classification core. -/
def getExtensionThatNotPresentOnOpenVSX (spdxIds : List String)
    (parse : String → Option PackageJson) (marketResp : Option MarketResponse)
    (repoField : RepoField) (content : Option String)
    (openVsxExtensionList : List String)
    (liveApi : String → FetchOutcome OpenVsxRespBody)
    (candWorlds : String → CandidateWorld)
    (extensionPackName : String) : Except JsError ClassifyOutput :=
  match checkExtensionsInOpenVsxFromVSCodeMarketplace parse marketResp repoField content
      openVsxExtensionList liveApi extensionPackName with
  | .error e => .error e
  | .ok extensions => .ok (classifyCandidates spdxIds candWorlds extensions)

/-- `allConditionsAreMet` (src/unnamed/part_002 lines 177-181 and
src/src/cli.ts lines 139-143):
`!notFoundWithlicense.length && !notFoundWithoutlicense.length &&
!deprecatedExtensions.length && !dontMeetConditions.length`. -/
def allConditionsAreMet (notFoundWithlicense notFoundWithoutlicense : List VSExtension)
    (deprecatedExtensions dontMeetConditions : List String) : Bool :=
  notFoundWithlicense.isEmpty && notFoundWithoutlicense.isEmpty
    && deprecatedExtensions.isEmpty && dontMeetConditions.isEmpty

/-- Modelled from the spec: the key under which the spec's sorting sentence
reads a timestamp — an empty or unparsable timestamp "sorts as
epoch/earliest", i.e. as 0. -/
def epochKey (itm : VSExtension) : Int :=
  (parseDate itm.lastUpdated).getD 0

/-- The five buckets of one classification run, read off the pipeline
`classifyCandidates ∘ checkMembership` as name lists: present-in-OpenVSX,
deprecated, ineligible, licensed, unlicensed. -/
structure Buckets where
  present : List String
  deprecated : List String
  ineligible : List String
  licensed : List String
  unlicensed : List String
deriving DecidableEq

/-- Observation of one full classification run as its five buckets. -/
def runBuckets (spdxIds openVsxMap : List String)
    (liveApi : String → FetchOutcome OpenVsxRespBody)
    (candWorlds : String → CandidateWorld)
    (extensionPackName : String) (list : List String) : Buckets :=
  let cr := checkMembership openVsxMap liveApi extensionPackName list
  let o := classifyCandidates spdxIds candWorlds cr
  { present := cr.found.map VSExtension.name
    deprecated := o.deprecatedExtensions
    ineligible := o.dontMeetConditions
    licensed := o.notFoundWithlicense.map VSExtension.name
    unlicensed := o.notFoundWithoutlicense.map VSExtension.name }

/-- A candidate enrichment fails when any of its three awaited stages
rejects: the marketplace query (or it resolves to no extension, making
`getRepoByVsixManifest` throw), the repository resolution, or the license
fetch. -/
def enrichFails (w : CandidateWorld) : Prop :=
  (∃ e, getExtInfoFromMicrosoftStore w.marketResp = .error e)
  ∨ getExtInfoFromMicrosoftStore w.marketResp = .ok none
  ∨ (∃ info, getExtInfoFromMicrosoftStore w.marketResp = .ok (some info)
      ∧ (∃ e, (getRepoByVsixManifest (some info) w.repoField).1 = .error e))
  ∨ (∃ e, getlicenseSpdxIdByRepoName w.licenseFetch = .error e)

/-- A candidate record with every field blank, used as a list-indexing
default in concrete statements. -/
def dummyVSExtension : VSExtension :=
  { name := "", msmarketplaceUrl := "", openvsx := "", repoUrl := none
    license := none, licenseUrl := none, lastUpdated := "" }

/-- Fixture: an Open VSX live-lookup environment where every request fails in
transport. -/
def noLive : String → FetchOutcome OpenVsxRespBody := fun _ => .failure

/-- Fixture: a candidate environment whose marketplace query resolves to
nothing, so enrichment rejects at the first stage. -/
def failWorld : CandidateWorld :=
  { marketResp := none, repoField := .missing, licenseFetch := .error (.error "network error") }

/-- Fixture: a marketplace version entry carrying a manifest asset. -/
def exampleVersion : Version :=
  { version := "1.0.0", lastUpdated := "2021-01-01"
    files := [{ assetType := .MicrosoftVisualStudioCodeManifest
                source := "https://ms.gallery/manifest.json" }] }

/-- Fixture: a marketplace extension entry with the given last-updated
timestamp. -/
def marketEntry (lastUpdated : String) : Extension :=
  { extensionName := "ext", lastUpdated := lastUpdated, versions := [exampleVersion] }

/-- Fixture: a marketplace query response resolving to `marketEntry`. -/
def okResp (lastUpdated : String) : Option MarketResponse :=
  some { results := some [{ extensions := some [marketEntry lastUpdated] }] }

/-- Fixture: a candidate environment where every stage succeeds, yielding the
given last-updated timestamp and SPDX id. -/
def okWorld (lastUpdated : String) (license : Option String) : CandidateWorld :=
  { marketResp := okResp lastUpdated
    repoField := .str "https://github.com/owner/repo"
    licenseFetch := .ok (some (license, some "https://github.com/owner/repo/blob/main/LICENSE")) }

/-- Fixture for the C1 counterexample: the deprecated identifier is also
present in the Open VSX snapshot. -/
def cexBuckets1 : Buckets :=
  runBuckets spdxLicenseIds ["peterjausovec.vscode-docker"] noLive (fun _ => failWorld)
    "a.pack" ["peterjausovec.vscode-docker"]

/-- Fixture: a candidate environment map where every candidate resolves with
an MIT license. -/
def cw3 : String → CandidateWorld := fun _ => okWorld "2021-01-01" (some "MIT")

/-- Fixture: membership result for a one-member pack absent everywhere. -/
def cexCheck3 : CheckResult := checkMembership [] noLive "a.pack" ["pub.ext"]

/-- Fixture: classification where the only member is licensed. -/
def cexOut3 : ClassifyOutput := classifyCandidates spdxLicenseIds cw3 cexCheck3

/-- Fixture: the single licensed candidate record of `cexOut3`. -/
def cexItm4 : VSExtension :=
  (sortByDate (enrichAll cw3 cexCheck3.notfound)).getD 0 dummyVSExtension

/-- Fixture: enrichment succeeds for `a.one` (no license) and fails for
everything else, whose timestamp then stays empty. -/
def cw5 : String → CandidateWorld :=
  fun n => if n = "a.one" then okWorld "2021-01-01" none else failWorld

/-- Fixture: membership result for the two-member pack of the sorting
scenario. -/
def cexCheck5 : CheckResult := checkMembership [] noLive "a.pack" ["a.one", "b.two"]

/-- Fixture: classification for the sorting counterexample — one parsable and
one empty timestamp, both unlicensed. -/
def cexOut5 : ClassifyOutput := classifyCandidates spdxLicenseIds cw5 cexCheck5

/-- Fixture: enrichment environment where both candidates carry parsable
timestamps, `b.two` the older one. -/
def cw5w : String → CandidateWorld :=
  fun n => if n = "a.one" then okWorld "2021-01-02" none else okWorld "2021-01-01" none

/-- Fixture: an extension with exactly one version, for the mutation claim. -/
def ext10 : Extension :=
  { extensionName := "pack", lastUpdated := "2021-01-01", versions := [exampleVersion] }

/-- The presence predicate of `checkMembership` spelled out: a snapshot hit,
or a hit among the live-lookup results keyed by the response body's
`namespace.name`. -/
def presentIn (openVsxExtensionMap : List String)
    (liveApi : String → FetchOutcome OpenVsxRespBody)
    (extensionPackName : String) (list : List String) (id : String) : Bool :=
  openVsxExtensionMap.contains id ||
    ((((list.filter (fun i => !openVsxExtensionMap.contains i)) ++ [extensionPackName]).map
        (fun extID => findExtByNameInOpenVSX ((splitDot extID).getD 0 "undefined")
          ((splitDot extID).getD 1 "undefined") (liveApi extID))).filterMap
      (fun itm => match itm with
        | .found e => some (extName e.namespaceName e.name)
        | .notFound _ _ => none)).contains id

/- ·························································· theorems below -/

lemma checkMembership_all (m : List String) (live : String → FetchOutcome OpenVsxRespBody)
    (pack : String) (list : List String) :
    (checkMembership m live pack list).all = list := rfl

lemma checkMembership_found (m : List String) (live : String → FetchOutcome OpenVsxRespBody)
    (pack : String) (list : List String) :
    (checkMembership m live pack list).found
      = addLinks (list.filter (fun id => presentIn m live pack list id)) := rfl

lemma checkMembership_notfound (m : List String) (live : String → FetchOutcome OpenVsxRespBody)
    (pack : String) (list : List String) :
    (checkMembership m live pack list).notfound
      = addLinks (list.filter (fun id => !(presentIn m live pack list id))) := rfl

lemma classify_dep_eq (spdxIds : List String) (cw : String → CandidateWorld)
    (cr : CheckResult) :
    (classifyCandidates spdxIds cw cr).deprecatedExtensions
      = cr.all.filter (fun name => (deprecatedExtensionsMap.map Prod.fst).contains name) := rfl

lemma classify_dont_eq (spdxIds : List String) (cw : String → CandidateWorld)
    (cr : CheckResult) :
    (classifyCandidates spdxIds cw cr).dontMeetConditions
      = cr.all.filter (fun name =>
          extensionsDontMeetOpenVSXConditons.any (fun itm => itm == name)) := rfl

lemma classify_wl_eq (spdxIds : List String) (cw : String → CandidateWorld)
    (cr : CheckResult) :
    (classifyCandidates spdxIds cw cr).notFoundWithlicense
      = (sortByDate (enrichAll cw cr.notfound)).filter (fun itm =>
          spdxIncludes spdxIds itm.license
            && !((classifyCandidates spdxIds cw cr).deprecatedExtensions.contains itm.name)
            && !((classifyCandidates spdxIds cw cr).dontMeetConditions.contains itm.name)) := rfl

lemma classify_wol_eq (spdxIds : List String) (cw : String → CandidateWorld)
    (cr : CheckResult) :
    (classifyCandidates spdxIds cw cr).notFoundWithoutlicense
      = (sortByDate (enrichAll cw cr.notfound)).filter (fun itm =>
          !(spdxIncludes spdxIds itm.license)
            && !((classifyCandidates spdxIds cw cr).deprecatedExtensions.contains itm.name)
            && !((classifyCandidates spdxIds cw cr).dontMeetConditions.contains itm.name)) := rfl

lemma addLinks_map_name (l : List String) : (addLinks l).map VSExtension.name = l := by
  induction l with
  | nil => rfl
  | cons x xs ih => simpa [addLinks] using ih

lemma enrichItem_name (w : CandidateWorld) (item : VSExtension) :
    (enrichItem w item).name = item.name := by
  unfold enrichItem
  repeat' split
  all_goals rfl

lemma enrichAll_map_name (cw : String → CandidateWorld) (items : List VSExtension) :
    (enrichAll cw items).map VSExtension.name = items.map VSExtension.name := by
  induction items with
  | nil => rfl
  | cons x xs ih =>
    simp [enrichAll, enrichItem_name]

lemma insertByDate_perm (x : VSExtension) (l : List VSExtension) :
    List.Perm (insertByDate x l) (x :: l) := by
  induction l with
  | nil => exact List.Perm.refl _
  | cons y ys ih =>
    by_cases h : dateLt (updKey y) (updKey x) = true
    · simp only [insertByDate, h, if_true]
      exact (ih.cons y).trans (List.Perm.swap x y ys)
    · simp only [insertByDate, h, if_false]
      exact List.Perm.refl _

lemma sortByDate_perm (l : List VSExtension) : List.Perm (sortByDate l) l := by
  induction l with
  | nil => exact List.Perm.refl _
  | cons x xs ih =>
    have hstep : sortByDate (x :: xs) = insertByDate x (sortByDate xs) := rfl
    rw [hstep]
    exact (insertByDate_perm x (sortByDate xs)).trans (ih.cons x)

lemma mem_sortByDate {x : VSExtension} {l : List VSExtension} :
    x ∈ sortByDate l ↔ x ∈ l := (sortByDate_perm l).mem_iff

lemma sorted_names_eq_perm (cw : String → CandidateWorld) (fl : List String) :
    List.Perm ((sortByDate (enrichAll cw (addLinks fl))).map VSExtension.name) fl := by
  have h1 := (sortByDate_perm (enrichAll cw (addLinks fl))).map VSExtension.name
  rw [enrichAll_map_name, addLinks_map_name] at h1
  exact h1

lemma mem_sorted_names (cw : String → CandidateWorld) (fl : List String) (id : String) :
    id ∈ (sortByDate (enrichAll cw (addLinks fl))).map VSExtension.name ↔ id ∈ fl :=
  (sorted_names_eq_perm cw fl).mem_iff

lemma nodup_sorted_names (cw : String → CandidateWorld) (fl : List String)
    (h : fl.Nodup) :
    ((sortByDate (enrichAll cw (addLinks fl))).map VSExtension.name).Nodup :=
  (sorted_names_eq_perm cw fl).nodup_iff.mpr h

/-- C10: `getRepoByVsixManifest` mutates its input — it removes the first
element of the extension's versions array (`shift`) before reading that
version's manifest-asset URL, so after the call the extension object has one
fewer version, a second call on the same object resolves from what was
originally the second version, and once no versions remain the call fails
with the assetUrl error. -/
theorem C10_shift_mutation (e : Extension) (rf rf2 : RepoField) (v : Version)
    (rest : List Version) (h : e.versions = v :: rest) :
    (getRepoByVsixManifest (some e) rf).2 = some { e with versions := rest }
    ∧ getRepoByVsixManifest ((getRepoByVsixManifest (some e) rf).2) rf2
        = getRepoByVsixManifest (some { e with versions := rest }) rf2
    ∧ (rest = [] →
        (getRepoByVsixManifest ((getRepoByVsixManifest (some e) rf).2) rf2).1
          = .error (.error "assetUrl should be valid url to ext manifest")) := by
  have h2 : (getRepoByVsixManifest (some e) rf).2 = some { e with versions := rest } := by
    simp [getRepoByVsixManifest, h]
  refine ⟨h2, by rw [h2], ?_⟩
  rintro rfl
  rw [h2]
  simp [getRepoByVsixManifest]

/-- Witness for C10 on an extension with exactly one version. -/
theorem C10_shift_mutation_witness :
    (getRepoByVsixManifest (some ext10) RepoField.missing).2 = some { ext10 with versions := [] }
    ∧ getRepoByVsixManifest ((getRepoByVsixManifest (some ext10) RepoField.missing).2)
          RepoField.missing
        = getRepoByVsixManifest (some { ext10 with versions := [] }) RepoField.missing
    ∧ (getRepoByVsixManifest ((getRepoByVsixManifest (some ext10) RepoField.missing).2)
          RepoField.missing).1
        = .error (.error "assetUrl should be valid url to ext manifest") :=
  ⟨(C10_shift_mutation ext10 RepoField.missing RepoField.missing exampleVersion [] rfl).1,
   (C10_shift_mutation ext10 RepoField.missing RepoField.missing exampleVersion [] rfl).2.1,
   (C10_shift_mutation ext10 RepoField.missing RepoField.missing exampleVersion [] rfl).2.2 rfl⟩

/-- C7: an Open VSX lookup whose JSON body carries an `error` field, or whose
transport (or body parse) fails, returns the typed not-found record with
lower-cased publisher and name; the lookup is a total function into
`OpenVsxLookupResult`, so such a failure is never an exception and cannot
abort the batch of lookups mapped over the candidates. -/
theorem C7_lookup_not_found (publisherName name : String)
    (resp : FetchOutcome OpenVsxRespBody)
    (h : resp = .failure ∨ ∃ msg, resp = .success (.errorBody msg)) :
    findExtByNameInOpenVSX publisherName name resp
      = .notFound (toLowerCase publisherName) (toLowerCase name) := by
  rcases h with rfl | ⟨msg, rfl⟩ <;> rfl

/-- Witness for C7 on a transport failure with mixed-case coordinates. -/
theorem C7_lookup_not_found_witness :
    findExtByNameInOpenVSX "Wallabyjs" "Quokka-vscode" .failure
      = .notFound "wallabyjs" "quokka-vscode" :=
  (C7_lookup_not_found "Wallabyjs" "Quokka-vscode" .failure (Or.inl rfl)).trans (by decide)

/-- C3 counterexample: a run whose licensed bucket is non-empty while the
deprecated, ineligible and unlicensed buckets are all empty yields
`allConditionsAreMet = false`, although the claim's formula (which ignores
the licensed bucket) says it should be true. -/
theorem C3_counterexample :
    allConditionsAreMet cexOut3.notFoundWithlicense cexOut3.notFoundWithoutlicense
        cexOut3.deprecatedExtensions cexOut3.dontMeetConditions = false
    ∧ cexOut3.notFoundWithoutlicense = []
    ∧ cexOut3.deprecatedExtensions = []
    ∧ cexOut3.dontMeetConditions = []
    ∧ cexOut3.notFoundWithlicense ≠ [] := by decide

/-- C3 amended: `allConditionsAreMet` is true iff the licensed, unlicensed,
deprecated and ineligible buckets are all empty — the code also requires the
licensed bucket to be empty. -/
theorem C3_amended_allConditionsAreMet (a b : List VSExtension) (c d : List String) :
    allConditionsAreMet a b c d = true ↔ (a = [] ∧ b = [] ∧ c = [] ∧ d = []) := by
  simp [allConditionsAreMet, and_assoc]

/-- C2: every pack member that is a key of the deprecation table lands in the
deprecated bucket and never in the licensed bucket, whatever license its
candidate record carries. -/
theorem C2_deprecated_precedence (spdxIds openVsxMap : List String)
    (liveApi : String → FetchOutcome OpenVsxRespBody)
    (candWorlds : String → CandidateWorld)
    (extensionPackName id : String) (list : List String)
    (hid : id ∈ list)
    (hkey : (deprecatedExtensionsMap.map Prod.fst).contains id = true) :
    id ∈ (classifyCandidates spdxIds candWorlds
        (checkMembership openVsxMap liveApi extensionPackName list)).deprecatedExtensions
    ∧ id ∉ (classifyCandidates spdxIds candWorlds
        (checkMembership openVsxMap liveApi extensionPackName list)).notFoundWithlicense.map
          VSExtension.name := by
  have hdep : id ∈ (classifyCandidates spdxIds candWorlds
      (checkMembership openVsxMap liveApi extensionPackName list)).deprecatedExtensions := by
    rw [classify_dep_eq, checkMembership_all]
    exact List.mem_filter.mpr ⟨hid, hkey⟩
  refine ⟨hdep, ?_⟩
  intro hmem
  rw [classify_wl_eq] at hmem
  obtain ⟨r, hr, hname⟩ := List.mem_map.mp hmem
  obtain ⟨_, hpred⟩ := List.mem_filter.mp hr
  simp only [Bool.and_eq_true] at hpred
  obtain ⟨⟨_, h2⟩, _⟩ := hpred
  have hcontains : (classifyCandidates spdxIds candWorlds
      (checkMembership openVsxMap liveApi extensionPackName list)).deprecatedExtensions.contains
        r.name = false := by
    simpa using h2
  rw [hname] at hcontains
  have htrue : (classifyCandidates spdxIds candWorlds
      (checkMembership openVsxMap liveApi extensionPackName list)).deprecatedExtensions.contains
        id = true := List.elem_iff.mpr hdep
  rw [htrue] at hcontains
  exact Bool.noConfusion hcontains

/-- Witness for C2: the deprecated identifier, absent from the snapshot and
enriched with a valid MIT license, is classified deprecated and not
licensed. -/
theorem C2_deprecated_precedence_witness :
    ("peterjausovec.vscode-docker" ∈ (["peterjausovec.vscode-docker"] : List String))
    ∧ (deprecatedExtensionsMap.map Prod.fst).contains "peterjausovec.vscode-docker" = true
    ∧ "peterjausovec.vscode-docker" ∈ (classifyCandidates spdxLicenseIds cw3
        (checkMembership [] noLive "a.pack" ["peterjausovec.vscode-docker"])).deprecatedExtensions
    ∧ "peterjausovec.vscode-docker" ∉ (classifyCandidates spdxLicenseIds cw3
        (checkMembership [] noLive "a.pack"
          ["peterjausovec.vscode-docker"])).notFoundWithlicense.map VSExtension.name := by
  have h := C2_deprecated_precedence spdxLicenseIds [] noLive cw3 "a.pack"
    "peterjausovec.vscode-docker" ["peterjausovec.vscode-docker"] (by decide) (by decide)
  exact ⟨by decide, by decide, h.1, h.2⟩

/-- C9: candidate enrichment is an all-complete join that never aborts — the
batch keeps its length, each output slot is determined by its own candidate's
responses alone, and a candidate whose enrichment fails at any stage retains
its null license and license-URL fields. -/
theorem C9_enrichment_isolation (candWorlds : String → CandidateWorld)
    (items : List VSExtension) (i : Nat) (w : CandidateWorld) (item : VSExtension) :
    (enrichAll candWorlds items).length = items.length
    ∧ (enrichAll candWorlds items)[i]?
        = (items[i]?).map (fun itm => enrichItem (candWorlds itm.name) itm)
    ∧ (enrichFails w →
        (enrichItem w item).license = item.license
        ∧ (enrichItem w item).licenseUrl = item.licenseUrl) := by
  refine ⟨by simp [enrichAll], by simp [enrichAll], ?_⟩
  intro hw
  rcases hw with ⟨e, he⟩ | he | ⟨info, hinfo, e, he⟩ | ⟨e, he⟩
  · simp [enrichItem, he]
  · simp [enrichItem, he]
  · simp [enrichItem, hinfo, he]
  · cases hm : getExtInfoFromMicrosoftStore w.marketResp with
    | error e2 => simp [enrichItem, hm]
    | ok oe =>
      cases oe with
      | none => simp [enrichItem, hm]
      | some info =>
        cases hr : (getRepoByVsixManifest (some info) w.repoField).1 with
        | error e2 => simp [enrichItem, hm, hr]
        | ok repo => simp [enrichItem, hm, hr, he]

/-- Witness for C9 on a one-candidate batch and a first-stage failure. -/
theorem C9_enrichment_isolation_witness :
    (enrichAll cw3 (addLinks ["a.one"])).length = (addLinks ["a.one"]).length
    ∧ (enrichAll cw3 (addLinks ["a.one"]))[0]?
        = ((addLinks ["a.one"])[0]?).map (fun itm => enrichItem (cw3 itm.name) itm)
    ∧ enrichFails failWorld
    ∧ (enrichItem failWorld dummyVSExtension).license = dummyVSExtension.license
    ∧ (enrichItem failWorld dummyVSExtension).licenseUrl = dummyVSExtension.licenseUrl := by
  have hf : enrichFails failWorld := Or.inr (Or.inl rfl)
  have h := C9_enrichment_isolation cw3 (addLinks ["a.one"]) 0 failWorld dummyVSExtension
  exact ⟨h.1, h.2.1, hf, (h.2.2 hf).1, (h.2.2 hf).2⟩

/-- C8 counterexample: a marketplace search response with an empty `results`
array makes the resolver fail with a generic TypeError — not with the typed
not-found error the claim requires. -/
theorem C8_counterexample :
    getExtInfoFromMicrosoftStore (some { results := some [] })
      = .error (.typeError "Cannot read properties of undefined (reading extensions)")
    ∧ isExtensionPack jsonParsePkg (some { results := some [] }) RepoField.missing none "x.y"
      = .error (.typeError "Cannot read properties of undefined (reading extensions)")
    ∧ (JsError.typeError "Cannot read properties of undefined (reading extensions)"
        ≠ JsError.error "Extension (x.y) not found") := by decide

/-- C8 amended: resolver failures are fatal and propagate — a search that
resolves to no extension fails with the typed not-found error (but an
entirely empty results array raises a generic TypeError instead); a
repository field that is an object without a usable url fails with the typed
malformed-manifest error (but a missing repository field raises a generic
TypeError); a failing repository resolution aborts `isExtensionPack`. -/
theorem C8_amended_resolver_errors (parse : String → Option PackageJson)
    (marketResp : Option MarketResponse) (repoField : RepoField)
    (content : Option String) (name : String) (e : Extension) (err : JsError) :
    (getExtInfoFromMicrosoftStore marketResp = .ok none →
      isExtensionPack parse marketResp repoField content name
        = .error (.error ("Extension (" ++ name ++ ") not found")))
    ∧ getExtManifest (.obj none)
        = .error (.error "repoUrl should be valid url, for instance https://github.com/microsoft/vscode-docker")
    ∧ getExtManifest (.obj (some ""))
        = .error (.error "repoUrl should be valid url, for instance https://github.com/microsoft/vscode-docker")
    ∧ getExtManifest .missing
        = .error (.typeError "Cannot read properties of undefined (reading url)")
    ∧ (getExtInfoFromMicrosoftStore marketResp = .ok (some e) →
        (getRepoByVsixManifest (some e) repoField).1 = .error err →
        isExtensionPack parse marketResp repoField content name = .error err) := by
  refine ⟨?_, rfl, rfl, rfl, ?_⟩
  · intro h
    simp [isExtensionPack, h]
  · intro h1 h2
    simp [isExtensionPack, h1, h2]

/-- Witness for C8 on an empty extensions array and an object repository
field without url. -/
theorem C8_amended_resolver_errors_witness :
    isExtensionPack jsonParsePkg (some { results := some [{ extensions := some [] }] })
        RepoField.missing none "x.y"
      = .error (.error "Extension (x.y) not found")
    ∧ isExtensionPack jsonParsePkg (okResp "2021-01-01") (.obj none) none "x.y"
      = .error (.error "repoUrl should be valid url, for instance https://github.com/microsoft/vscode-docker") := by
  have h1 := C8_amended_resolver_errors jsonParsePkg
    (some { results := some [{ extensions := some [] }] }) RepoField.missing none "x.y"
    (marketEntry "2021-01-01") (.error "unused")
  have h2 := C8_amended_resolver_errors jsonParsePkg (okResp "2021-01-01") (.obj none) none "x.y"
    (marketEntry "2021-01-01")
    (.error "repoUrl should be valid url, for instance https://github.com/microsoft/vscode-docker")
  exact ⟨h1.1 rfl, h2.2.2.2.2 rfl rfl⟩

/-- C6 counterexample: content that is valid base64 but decodes to invalid
JSON ("ew==" decodes to a lone opening brace) raises the JSON parse error
instead of yielding an empty member list. -/
theorem C6_counterexample :
    isValidB64 "ew==" = true
    ∧ decodeB64 "ew==" = "\x7b"
    ∧ downloadPackageJsonFromGithub jsonParsePkg (some "ew==")
        = .error (.error "Unexpected end of JSON input") := by decide

/-- C6 amended: member-list resolution lower-cases every member identifier
and takes `extensionPack` or, when absent, `extensionDependencies`; missing
or base64-invalid content yields the empty package (hence an empty member
list) rather than an error, but content decoding to invalid JSON raises the
parse error; `isExtensionPack` is true iff the resolved member list is
non-empty. -/
theorem C6_amended_member_resolution (parse : String → Option PackageJson)
    (pkg : PackageJson) (l : List String) (c : String) (content : Option String)
    (marketResp : Option MarketResponse) (repoField : RepoField)
    (r : RepoInfo) (e : Extension) (name : String) :
    (pkg.extensionPack = some l →
      extractExtensionPackFromPackageJson pkg = l.map toLowerCase)
    ∧ (pkg.extensionPack = none → pkg.extensionDependencies = some l →
      extractExtensionPackFromPackageJson pkg = l.map toLowerCase)
    ∧ (pkg.extensionPack = none → pkg.extensionDependencies = none →
      extractExtensionPackFromPackageJson pkg = [])
    ∧ downloadPackageJsonFromGithub parse none
        = .ok { extensionPack := none, extensionDependencies := none }
    ∧ ((c != "" && isValidB64 c) = false →
      downloadPackageJsonFromGithub parse (some c)
        = .ok { extensionPack := none, extensionDependencies := none })
    ∧ (getExtInfoFromMicrosoftStore marketResp = .ok (some e) →
      (getRepoByVsixManifest (some e) repoField).1 = .ok r →
      downloadPackageJsonFromGithub parse content = .ok pkg →
      (isExtensionPack parse marketResp repoField content name = .ok true
        ↔ extractExtensionPackFromPackageJson pkg ≠ [])) := by
  refine ⟨?_, ?_, ?_, rfl, ?_, ?_⟩
  · intro h
    simp [extractExtensionPackFromPackageJson, h, Option.orElse]
  · intro h1 h2
    simp [extractExtensionPackFromPackageJson, h1, h2, Option.orElse]
  · intro h1 h2
    simp [extractExtensionPackFromPackageJson, h1, h2, Option.orElse]
  · intro h
    simp [downloadPackageJsonFromGithub, h]
  · intro h1 h2 h3
    simp [isExtensionPack, h1, h2, h3, List.length_pos]

/-- Witness for C6: a mixed-case extensionPack field, non-base64 content, and
a valid empty package.json. -/
theorem C6_amended_member_resolution_witness :
    extractExtensionPackFromPackageJson
        { extensionPack := some ["Pub.Ext"], extensionDependencies := none }
      = ["pub.ext"]
    ∧ downloadPackageJsonFromGithub jsonParsePkg (some "!!!")
        = .ok { extensionPack := none, extensionDependencies := none }
    ∧ (isExtensionPack jsonParsePkg (okResp "2021-01-01")
          (.str "https://github.com/owner/repo") (some "e30=") "x.y" = .ok true
        ↔ extractExtensionPackFromPackageJson
            { extensionPack := none, extensionDependencies := none } ≠ []) := by
  have h1 := C6_amended_member_resolution jsonParsePkg
    { extensionPack := some ["Pub.Ext"], extensionDependencies := none } ["Pub.Ext"] "!!!"
    (some "e30=") (okResp "2021-01-01") (.str "https://github.com/owner/repo")
    { owner := "owner", name := "repo", repoUrl := "https://github.com/owner/repo" }
    (marketEntry "2021-01-01") "x.y"
  have h2 := C6_amended_member_resolution jsonParsePkg
    { extensionPack := none, extensionDependencies := none } [] "!!!"
    (some "e30=") (okResp "2021-01-01") (.str "https://github.com/owner/repo")
    { owner := "owner", name := "repo", repoUrl := "https://github.com/owner/repo" }
    (marketEntry "2021-01-01") "x.y"
  refine ⟨(h1.1 rfl).trans (by decide), h1.2.2.2.2.1 (by decide), ?_⟩
  exact h2.2.2.2.2.2 rfl (by decide) (by decide)

/-- C4: a candidate that is neither deprecated nor ineligible is bucketed as
licensed iff its license field is an exact, case-sensitive member of the
SPDX id set; in particular "MIT" is a member while "Custom-1.0" and the
empty string are not. -/
theorem C4_license_bucketing (spdxIds : List String)
    (candWorlds : String → CandidateWorld) (extensions : CheckResult)
    (itm : VSExtension)
    (hmem : itm ∈ sortByDate (enrichAll candWorlds extensions.notfound))
    (hdep : (classifyCandidates spdxIds candWorlds extensions).deprecatedExtensions.contains
      itm.name = false)
    (hdm : (classifyCandidates spdxIds candWorlds extensions).dontMeetConditions.contains
      itm.name = false) :
    (itm ∈ (classifyCandidates spdxIds candWorlds extensions).notFoundWithlicense
      ↔ spdxIncludes spdxIds itm.license = true)
    ∧ (itm ∈ (classifyCandidates spdxIds candWorlds extensions).notFoundWithoutlicense
      ↔ spdxIncludes spdxIds itm.license = false)
    ∧ spdxIncludes spdxLicenseIds (some "MIT") = true
    ∧ spdxIncludes spdxLicenseIds (some "Custom-1.0") = false
    ∧ spdxIncludes spdxLicenseIds (some "") = false := by
  refine ⟨?_, ?_, by decide, by decide, by decide⟩
  · rw [classify_wl_eq, List.mem_filter]
    constructor
    · rintro ⟨-, hp⟩
      simp only [Bool.and_eq_true] at hp
      exact hp.1.1
    · intro hp
      refine ⟨hmem, ?_⟩
      simp only [hp, hdep, hdm]
      rfl
  · rw [classify_wol_eq, List.mem_filter]
    constructor
    · rintro ⟨-, hp⟩
      simp only [Bool.and_eq_true] at hp
      simpa using hp.1.1
    · intro hp
      refine ⟨hmem, ?_⟩
      simp only [hp, hdep, hdm]
      rfl

/-- Witness for C4 on the MIT-licensed candidate of the `cexOut3` run. -/
theorem C4_license_bucketing_witness :
    cexItm4 ∈ sortByDate (enrichAll cw3 cexCheck3.notfound)
    ∧ cexOut3.deprecatedExtensions.contains cexItm4.name = false
    ∧ cexOut3.dontMeetConditions.contains cexItm4.name = false
    ∧ cexItm4 ∈ cexOut3.notFoundWithlicense
    ∧ spdxIncludes spdxLicenseIds cexItm4.license = true := by
  have h := C4_license_bucketing spdxLicenseIds cw3 cexCheck3 cexItm4
    (by decide) (by decide) (by decide)
  exact ⟨by decide, by decide, by decide, h.1.mpr (by decide), by decide⟩

lemma dateLt_true {a b : Option Int} (h : dateLt a b = true) :
    ∃ x y, a = some x ∧ b = some y ∧ x < y := by
  cases a with
  | none => simp [dateLt] at h
  | some x =>
    cases b with
    | none => simp [dateLt] at h
    | some y => exact ⟨x, y, rfl, rfl, by simpa [dateLt] using h⟩

lemma pairwise_insertByDate (x : VSExtension) (l : List VSExtension)
    (hx : (updKey x).isSome = true) (hl : ∀ y ∈ l, (updKey y).isSome = true)
    (h : l.Pairwise (fun a b => dateLt (updKey b) (updKey a) = false)) :
    (insertByDate x l).Pairwise (fun a b => dateLt (updKey b) (updKey a) = false) := by
  induction l with
  | nil => simp [insertByDate]
  | cons y ys ih =>
    obtain ⟨hy, hys⟩ := List.pairwise_cons.mp h
    by_cases hcase : dateLt (updKey y) (updKey x) = true
    · simp only [insertByDate, hcase, if_true]
      rw [List.pairwise_cons]
      constructor
      · intro z hz
        rcases List.mem_cons.mp ((insertByDate_perm x ys).mem_iff.mp hz) with rfl | hz2
        · obtain ⟨a, b, ha, hb, hab⟩ := dateLt_true hcase
          rw [hb, ha]
          simp only [dateLt, decide_eq_false_iff_not]
          omega
        · exact hy z hz2
      · exact ih (fun z hz => hl z (List.mem_cons_of_mem y hz)) hys
    · have hfalse : dateLt (updKey y) (updKey x) = false := Bool.eq_false_iff.mpr hcase
      simp only [insertByDate, hfalse, Bool.false_eq_true, if_false]
      rw [List.pairwise_cons]
      refine ⟨?_, h⟩
      intro z hz
      rcases List.mem_cons.mp hz with rfl | hz2
      · exact Bool.eq_false_iff.mpr hcase
      · have hyz := hy z hz2
        obtain ⟨kx, hkx⟩ := Option.isSome_iff_exists.mp hx
        obtain ⟨ky, hky⟩ := Option.isSome_iff_exists.mp (hl y (List.mem_cons_self y ys))
        obtain ⟨kz, hkz⟩ := Option.isSome_iff_exists.mp (hl z (List.mem_cons_of_mem y hz2))
        rw [hky, hkx] at hcase
        rw [hkz, hky] at hyz
        rw [hkz, hkx]
        simp only [dateLt, decide_eq_true_eq, decide_eq_false_iff_not] at hcase hyz ⊢
        omega

lemma pairwise_sortByDate (l : List VSExtension)
    (hl : ∀ y ∈ l, (updKey y).isSome = true) :
    (sortByDate l).Pairwise (fun a b => dateLt (updKey b) (updKey a) = false) := by
  induction l with
  | nil => simp [sortByDate]
  | cons x xs ih =>
    have hstep : sortByDate (x :: xs) = insertByDate x (sortByDate xs) := rfl
    rw [hstep]
    refine pairwise_insertByDate x (sortByDate xs) (hl x (List.mem_cons_self x xs)) ?_ (ih ?_)
    · intro y hy
      exact hl y (List.mem_cons_of_mem x (mem_sortByDate.mp hy))
    · intro y hy
      exact hl y (List.mem_cons_of_mem x hy)

lemma filter_insertByDate (κ : Option Int) (x : VSExtension) (l : List VSExtension) :
    (insertByDate x l).filter (fun itm => updKey itm == κ)
      = (x :: l).filter (fun itm => updKey itm == κ) := by
  induction l with
  | nil => rfl
  | cons y ys ih =>
    by_cases hcase : dateLt (updKey y) (updKey x) = true
    · simp only [insertByDate, hcase, if_true]
      by_cases hx : (updKey x == κ) = true <;> by_cases hy : (updKey y == κ) = true
      · exfalso
        obtain ⟨a, b, ha, hb, hab⟩ := dateLt_true hcase
        have h1 : updKey x = κ := by simpa using hx
        have h2 : updKey y = κ := by simpa using hy
        rw [hb] at h1
        rw [ha] at h2
        rw [← h2] at h1
        have : b = a := by simpa using h1
        omega
      all_goals simp [List.filter_cons, hx, hy, ih]
    · have hfalse : dateLt (updKey y) (updKey x) = false := Bool.eq_false_iff.mpr hcase
      simp [insertByDate, hfalse]

lemma filter_sortByDate (κ : Option Int) (l : List VSExtension) :
    (sortByDate l).filter (fun itm => updKey itm == κ)
      = l.filter (fun itm => updKey itm == κ) := by
  induction l with
  | nil => rfl
  | cons x xs ih =>
    have hstep : sortByDate (x :: xs) = insertByDate x (sortByDate xs) := rfl
    rw [hstep, filter_insertByDate, List.filter_cons, List.filter_cons, ih]

/-- C5 counterexample: an empty last-updated timestamp does not sort as
epoch/earliest — lodash's comparator sees an Invalid Date as equal to every
key, so the empty-timestamp candidate keeps its input position and the
unlicensed bucket is not non-decreasing under the spec's epoch reading. -/
theorem C5_counterexample :
    cexOut5.notFoundWithoutlicense.map VSExtension.name = ["a.one", "b.two"]
    ∧ cexOut5.notFoundWithoutlicense.map (fun itm => itm.lastUpdated) = ["2021-01-01", ""]
    ∧ ¬(epochKey (cexOut5.notFoundWithoutlicense.getD 0 dummyVSExtension)
        ≤ epochKey (cexOut5.notFoundWithoutlicense.getD 1 dummyVSExtension)) := by decide

/-- C5 (amended): when every enriched candidate's timestamp parses, the
licensed and unlicensed buckets are non-decreasing by last-updated key;
candidates with identical (or unparsable) timestamps always preserve their
relative input order; unparsable timestamps compare equal to everything
instead of sorting as epoch; deprecated and ineligible buckets preserve
manifest member order. -/
theorem C5_amended_sorting (spdxIds : List String)
    (candWorlds : String → CandidateWorld) (extensions : CheckResult) (κ : Option Int) :
    (((enrichAll candWorlds extensions.notfound).all (fun itm => (updKey itm).isSome)) = true →
      (classifyCandidates spdxIds candWorlds extensions).notFoundWithlicense.Pairwise
          (fun a b => dateLt (updKey b) (updKey a) = false)
      ∧ (classifyCandidates spdxIds candWorlds extensions).notFoundWithoutlicense.Pairwise
          (fun a b => dateLt (updKey b) (updKey a) = false))
    ∧ (sortByDate (enrichAll candWorlds extensions.notfound)).filter
          (fun itm => updKey itm == κ)
        = (enrichAll candWorlds extensions.notfound).filter (fun itm => updKey itm == κ)
    ∧ (classifyCandidates spdxIds candWorlds extensions).deprecatedExtensions.Sublist
        extensions.all
    ∧ (classifyCandidates spdxIds candWorlds extensions).dontMeetConditions.Sublist
        extensions.all := by
  refine ⟨?_, filter_sortByDate κ _, ?_, ?_⟩
  · intro hall
    have hall' : ∀ y ∈ enrichAll candWorlds extensions.notfound, (updKey y).isSome = true := by
      simpa [List.all_eq_true] using hall
    have hsorted := pairwise_sortByDate (enrichAll candWorlds extensions.notfound) hall'
    constructor
    · rw [classify_wl_eq]
      exact List.Pairwise.sublist (List.filter_sublist _) hsorted
    · rw [classify_wol_eq]
      exact List.Pairwise.sublist (List.filter_sublist _) hsorted
  · rw [classify_dep_eq]
    exact List.filter_sublist _
  · rw [classify_dont_eq]
    exact List.filter_sublist _

/-- Witness for C5 on a run where both candidates carry parsable timestamps,
the older one listed second. -/
theorem C5_amended_sorting_witness :
    ((enrichAll cw5w cexCheck5.notfound).all (fun itm => (updKey itm).isSome)) = true
    ∧ (classifyCandidates spdxLicenseIds cw5w cexCheck5).notFoundWithoutlicense.Pairwise
        (fun a b => dateLt (updKey b) (updKey a) = false)
    ∧ (sortByDate (enrichAll cw5w cexCheck5.notfound)).filter
          (fun itm => updKey itm == some 20210101)
        = (enrichAll cw5w cexCheck5.notfound).filter (fun itm => updKey itm == some 20210101) := by
  have h := C5_amended_sorting spdxLicenseIds cw5w cexCheck5 (some 20210101)
  exact ⟨by decide, (h.1 (by decide)).2, h.2.1⟩

lemma buckets_partition (spdxIds : List String) (cw : String → CandidateWorld)
    (list : List String) (p : String → Bool) (id : String)
    (hnd : list.Nodup) (hid : id ∈ list) :
    let cr : CheckResult :=
      ⟨list, addLinks (list.filter p), addLinks (list.filter (fun i => !(p i)))⟩
    let o := classifyCandidates spdxIds cw cr
    let present := cr.found.map VSExtension.name
    let licensed := o.notFoundWithlicense.map VSExtension.name
    let unlicensed := o.notFoundWithoutlicense.map VSExtension.name
    (id ∈ present ∨ id ∈ o.deprecatedExtensions ∨ id ∈ o.dontMeetConditions
      ∨ id ∈ licensed ∨ id ∈ unlicensed)
    ∧ (id ∈ licensed →
        id ∉ unlicensed ∧ id ∉ o.deprecatedExtensions ∧ id ∉ o.dontMeetConditions
          ∧ id ∉ present)
    ∧ (id ∈ unlicensed →
        id ∉ o.deprecatedExtensions ∧ id ∉ o.dontMeetConditions ∧ id ∉ present)
    ∧ (id ∈ o.deprecatedExtensions → id ∉ o.dontMeetConditions) := by
  intro cr o present licensed unlicensed
  have hpresent : id ∈ present ↔ p id = true := by
    show id ∈ (addLinks (list.filter p)).map VSExtension.name ↔ _
    rw [addLinks_map_name, List.mem_filter]
    exact ⟨fun h => h.2, fun h => ⟨hid, h⟩⟩
  have hS : ∀ a : String,
      a ∈ (sortByDate (enrichAll cw cr.notfound)).map VSExtension.name
        ↔ a ∈ list ∧ p a = false := by
    intro a
    show a ∈ (sortByDate (enrichAll cw (addLinks (list.filter (fun i => !(p i)))))).map
      VSExtension.name ↔ _
    rw [mem_sorted_names, List.mem_filter]
    constructor
    · rintro ⟨h1, h2⟩
      exact ⟨h1, by simpa using h2⟩
    · rintro ⟨h1, h2⟩
      exact ⟨h1, by simp [h2]⟩
  have hnodupS : ((sortByDate (enrichAll cw cr.notfound)).map VSExtension.name).Nodup :=
    nodup_sorted_names cw (list.filter (fun i => !(p i))) (hnd.filter _)
  have hdepm : ∀ a : String, a ∈ o.deprecatedExtensions
      ↔ a ∈ list ∧ (deprecatedExtensionsMap.map Prod.fst).contains a = true := by
    intro a
    show a ∈ (classifyCandidates spdxIds cw cr).deprecatedExtensions ↔ _
    rw [classify_dep_eq]
    exact List.mem_filter
  have hdontm : ∀ a : String, a ∈ o.dontMeetConditions
      ↔ a ∈ list ∧ extensionsDontMeetOpenVSXConditons.any (fun itm => itm == a) = true := by
    intro a
    show a ∈ (classifyCandidates spdxIds cw cr).dontMeetConditions ↔ _
    rw [classify_dont_eq]
    exact List.mem_filter
  have hlic : ∀ a : String, a ∈ licensed
      ↔ ∃ r, r ∈ sortByDate (enrichAll cw cr.notfound) ∧ r.name = a
          ∧ (spdxIncludes spdxIds r.license
              && !(o.deprecatedExtensions.contains r.name)
              && !(o.dontMeetConditions.contains r.name)) = true := by
    intro a
    show a ∈ (classifyCandidates spdxIds cw cr).notFoundWithlicense.map VSExtension.name ↔ _
    rw [classify_wl_eq, List.mem_map]
    constructor
    · rintro ⟨r, hr, rfl⟩
      obtain ⟨h1, h2⟩ := List.mem_filter.mp hr
      exact ⟨r, h1, rfl, h2⟩
    · rintro ⟨r, h1, rfl, h2⟩
      exact ⟨r, List.mem_filter.mpr ⟨h1, h2⟩, rfl⟩
  have hwol : ∀ a : String, a ∈ unlicensed
      ↔ ∃ r, r ∈ sortByDate (enrichAll cw cr.notfound) ∧ r.name = a
          ∧ (!(spdxIncludes spdxIds r.license)
              && !(o.deprecatedExtensions.contains r.name)
              && !(o.dontMeetConditions.contains r.name)) = true := by
    intro a
    show a ∈ (classifyCandidates spdxIds cw cr).notFoundWithoutlicense.map VSExtension.name ↔ _
    rw [classify_wol_eq, List.mem_map]
    constructor
    · rintro ⟨r, hr, rfl⟩
      obtain ⟨h1, h2⟩ := List.mem_filter.mp hr
      exact ⟨r, h1, rfl, h2⟩
    · rintro ⟨r, h1, rfl, h2⟩
      exact ⟨r, List.mem_filter.mpr ⟨h1, h2⟩, rfl⟩
  have hdep_false : ∀ r : VSExtension,
      (!(o.deprecatedExtensions.contains r.name)) = true → r.name ∉ o.deprecatedExtensions := by
    intro r hr hmem
    have htrue : o.deprecatedExtensions.contains r.name = true := List.elem_iff.mpr hmem
    rw [htrue] at hr
    exact Bool.noConfusion hr
  have hdont_false : ∀ r : VSExtension,
      (!(o.dontMeetConditions.contains r.name)) = true → r.name ∉ o.dontMeetConditions := by
    intro r hr hmem
    have htrue : o.dontMeetConditions.contains r.name = true := List.elem_iff.mpr hmem
    rw [htrue] at hr
    exact Bool.noConfusion hr
  refine ⟨?_, ?_, ?_, ?_⟩
  · cases hp : p id with
    | true => exact Or.inl (hpresent.mpr hp)
    | false =>
      obtain ⟨r, hrS, hrname⟩ := List.mem_map.mp ((hS id).mpr ⟨hid, hp⟩)
      by_cases hd : (deprecatedExtensionsMap.map Prod.fst).contains id = true
      · exact Or.inr (Or.inl ((hdepm id).mpr ⟨hid, hd⟩))
      · by_cases hdm : extensionsDontMeetOpenVSXConditons.any (fun itm => itm == id) = true
        · exact Or.inr (Or.inr (Or.inl ((hdontm id).mpr ⟨hid, hdm⟩)))
        · have hcd : o.deprecatedExtensions.contains r.name = false := by
            rw [hrname]
            cases hcc : o.deprecatedExtensions.contains id
            · rfl
            · exact absurd ((hdepm id).mp (List.elem_iff.mp hcc)).2 hd
          have hcm : o.dontMeetConditions.contains r.name = false := by
            rw [hrname]
            cases hcc : o.dontMeetConditions.contains id
            · rfl
            · exact absurd ((hdontm id).mp (List.elem_iff.mp hcc)).2 hdm
          cases hsp : spdxIncludes spdxIds r.license with
          | true =>
            refine Or.inr (Or.inr (Or.inr (Or.inl ?_)))
            exact (hlic id).mpr ⟨r, hrS, hrname, by simp only [hsp, hcd, hcm]; rfl⟩
          | false =>
            refine Or.inr (Or.inr (Or.inr (Or.inr ?_)))
            exact (hwol id).mpr ⟨r, hrS, hrname, by simp only [hsp, hcd, hcm]; rfl⟩
  · intro hl
    obtain ⟨r, hrS, hrname, hpred⟩ := (hlic id).mp hl
    simp only [Bool.and_eq_true] at hpred
    obtain ⟨⟨hsp, hd⟩, hdm⟩ := hpred
    refine ⟨?_, hrname ▸ hdep_false r hd, hrname ▸ hdont_false r hdm, ?_⟩
    · intro hu
      obtain ⟨r2, hr2S, hr2name, hpred2⟩ := (hwol id).mp hu
      have heq : r = r2 :=
        List.inj_on_of_nodup_map hnodupS hrS hr2S (hrname.trans hr2name.symm)
      rw [← heq] at hpred2
      simp only [Bool.and_eq_true] at hpred2
      obtain ⟨⟨hsp2, -⟩, -⟩ := hpred2
      rw [hsp] at hsp2
      exact Bool.noConfusion hsp2
    · intro hpres
      have hp1 : p id = true := hpresent.mp hpres
      have hp0 : p id = false :=
        ((hS id).mp (List.mem_map.mpr ⟨r, hrS, hrname⟩)).2
      rw [hp1] at hp0
      exact Bool.noConfusion hp0
  · intro hu
    obtain ⟨r, hrS, hrname, hpred⟩ := (hwol id).mp hu
    simp only [Bool.and_eq_true] at hpred
    obtain ⟨⟨-, hd⟩, hdm⟩ := hpred
    refine ⟨hrname ▸ hdep_false r hd, hrname ▸ hdont_false r hdm, ?_⟩
    intro hpres
    have hp1 : p id = true := hpresent.mp hpres
    have hp0 : p id = false :=
      ((hS id).mp (List.mem_map.mpr ⟨r, hrS, hrname⟩)).2
    rw [hp1] at hp0
    exact Bool.noConfusion hp0
  · intro hdmem hdmmem
    have h1 := ((hdepm id).mp hdmem).2
    have h2 := ((hdontm id).mp hdmmem).2
    have e1 : id = "peterjausovec.vscode-docker" := by
      simpa [deprecatedExtensionsMap] using List.elem_iff.mp h1
    rw [e1] at h2
    revert h2
    decide

/-- C1 counterexample: a member that is both a key of the deprecation table
and present in the Open VSX snapshot appears in the present bucket AND in
the deprecated bucket, so it does not fall in exactly one bucket. -/
theorem C1_counterexample :
    "peterjausovec.vscode-docker" ∈ cexBuckets1.present
    ∧ "peterjausovec.vscode-docker" ∈ cexBuckets1.deprecated := by decide

/-- C1 (amended): for a duplicate-free member list, every member identifier
appears in at least one of the five buckets; the licensed and unlicensed
buckets are disjoint from each other and from every other bucket, and
deprecated is disjoint from ineligible — but a deprecated or ineligible
member that is also present in Open VSX appears in the present bucket too,
so the five buckets are exhaustive without being an exact partition. -/
theorem C1_amended_partition (spdxIds openVsxMap : List String)
    (liveApi : String → FetchOutcome OpenVsxRespBody)
    (candWorlds : String → CandidateWorld)
    (extensionPackName : String) (list : List String) (id : String)
    (hnd : list.Nodup) (hid : id ∈ list) :
    let b := runBuckets spdxIds openVsxMap liveApi candWorlds extensionPackName list
    (id ∈ b.present ∨ id ∈ b.deprecated ∨ id ∈ b.ineligible
      ∨ id ∈ b.licensed ∨ id ∈ b.unlicensed)
    ∧ (id ∈ b.licensed →
        id ∉ b.unlicensed ∧ id ∉ b.deprecated ∧ id ∉ b.ineligible ∧ id ∉ b.present)
    ∧ (id ∈ b.unlicensed → id ∉ b.deprecated ∧ id ∉ b.ineligible ∧ id ∉ b.present)
    ∧ (id ∈ b.deprecated → id ∉ b.ineligible) := by
  intro b
  exact buckets_partition spdxIds candWorlds list
    (fun i => presentIn openVsxMap liveApi extensionPackName list i) id hnd hid

/-- Witness for C1 on a one-member pack absent from Open VSX. -/
theorem C1_amended_partition_witness :
    (["pub.ext"] : List String).Nodup
    ∧ "pub.ext" ∈ (["pub.ext"] : List String)
    ∧ ("pub.ext" ∈ (runBuckets spdxLicenseIds [] noLive cw3 "a.pack" ["pub.ext"]).present
        ∨ "pub.ext" ∈ (runBuckets spdxLicenseIds [] noLive cw3 "a.pack" ["pub.ext"]).deprecated
        ∨ "pub.ext" ∈ (runBuckets spdxLicenseIds [] noLive cw3 "a.pack" ["pub.ext"]).ineligible
        ∨ "pub.ext" ∈ (runBuckets spdxLicenseIds [] noLive cw3 "a.pack" ["pub.ext"]).licensed
        ∨ "pub.ext" ∈ (runBuckets spdxLicenseIds [] noLive cw3 "a.pack" ["pub.ext"]).unlicensed) := by
  have h := C1_amended_partition spdxLicenseIds [] noLive cw3 "a.pack" ["pub.ext"] "pub.ext"
    (by decide) (by decide)
  exact ⟨by decide, by decide, h.1⟩

end VSPack
